import Mathlib

/-!
Verification of the `ustar` tar-header reader (files `src/common/meta.rs`,
`src/common/read.rs`, `src/common/mod.rs`).

The embedding is shallow: a 512-byte block is a `List Nat` of byte values,
Rust strings produced by `extract_string` (UTF-8-lossy decode of the bytes
before the first NUL) are modelled by the underlying byte list (the lossy
decode is injective on the NUL-free ASCII data these claims touch, and a
non-ASCII or replacement character can never be an octal digit or a sign,
so octal parsing over the byte list is extensionally the Rust behaviour).
A Rust `panic!` (the `.unwrap()` on the checksum parse in
`PosixHeader::validate`) is modelled by `Option`: `none` is a panic.
-/

namespace Ustar

def BLOCK_SIZE : Nat := 512

def HEADER_SIZE : Nat := 500

def ASCII_SPACE : Nat := 32

/-- `meta.rs`: `const HEADER_MAGIC: &[u8; 6] = b"ustar "` (trailing space). -/
def HEADER_MAGIC : List Nat := [117, 115, 116, 97, 114, 32]

/-- `HeaderCheck` from `meta.rs`. -/
inductive HeaderCheck where
  | Valid : HeaderCheck
  | Invalid (not_ustar : Bool) : HeaderCheck
  | Zeroes : HeaderCheck
deriving DecidableEq, Repr

/-- `HeaderType` from `meta.rs`. -/
inductive HeaderType where
  | Reg | Link | Sym | Chr | Blk | Dir | Fifo | Cont | Xhd | Xlg | Unknown
deriving DecidableEq, Repr

/-- `TYPE_FLAGS` table from `meta.rs` (byte values of the flag characters;
the final `(Reg, 0)` entry is the old-format NUL matcher). -/
def TYPE_FLAGS : List (HeaderType × Nat) :=
  [(.Reg, 48), (.Link, 49), (.Sym, 50), (.Chr, 51), (.Blk, 52), (.Dir, 53),
   (.Fifo, 54), (.Cont, 55), (.Xhd, 120), (.Xlg, 103), (.Reg, 0)]

/-- `pair_match_value` from `mod.rs`: first key whose value matches. -/
def pair_match_value (value : Nat) (pairs : List (HeaderType × Nat)) :
    Option HeaderType :=
  (pairs.find? (fun p => p.2 == value)).map Prod.fst

/-- `PosixHeader::extract`: the sub-slice `buffer[start .. start+len]`. -/
def extract (b : List Nat) (start len : Nat) : List Nat :=
  (b.drop start).take len

/-- The bytes strictly before the first zero byte (whole list if none):
the range scan inside `PosixHeader::extract_string`. -/
def takeBeforeZero : List Nat → List Nat
  | [] => []
  | v :: vs => if v = 0 then [] else v :: takeBeforeZero vs

/-- `PosixHeader::extract_string`, as the byte list of the resulting
string (see the module comment for why this is faithful). -/
def extract_string (b : List Nat) (start len : Nat) : List Nat :=
  takeBeforeZero (extract b start len)

def isOctDigit (c : Nat) : Bool := 48 ≤ c && c ≤ 55

/-- Value of a run of ASCII octal digits. -/
def octVal (l : List Nat) : Nat :=
  l.foldl (fun a c => 8 * a + (c - 48)) 0

/-- `usize::from_str_radix(s, 8)` / `isize::from_str_radix(s, 8)` digit
part: at least one character, all octal digits. -/
def parseOctDigits (l : List Nat) : Option Nat :=
  if l ≠ [] && l.all isOctDigit then some (octVal l) else none

/-- `parse_isize` from `mod.rs` on the byte list of its argument (the
NUL trim is a no-op there: `extract_string` output never contains NUL).
`isize::from_str_radix` allows one leading sign. -/
def parse_isize (l : List Nat) : Option Int :=
  match l with
  | 43 :: rest => (parseOctDigits rest).map (fun n => (n : Int))
  | 45 :: rest => (parseOctDigits rest).map (fun n => -(n : Int))
  | _ => (parseOctDigits l).map (fun n => (n : Int))

/-- `parse_usize` from `mod.rs`; `usize::from_str_radix` allows `+`. -/
def parse_usize (l : List Nat) : Option Nat :=
  match l with
  | 43 :: rest => parseOctDigits rest
  | _ => parseOctDigits l

/-- `(value as i8) as isize` for a byte value. -/
def signedByte (v : Nat) : Int :=
  if v < 128 then (v : Int) else (v : Int) - 256

/-- The 500 checksummed bytes of `PosixHeader::validate`: the first 500
bytes of the block with the checksum field (148..156) replaced by ASCII
spaces. -/
def checksummedBytes (b : List Nat) : List Nat :=
  b.take 148 ++ List.replicate 8 ASCII_SPACE ++ (b.drop 156).take 344

/-- `unsigned_sum` accumulator of `PosixHeader::validate`. -/
def unsigned_sum (b : List Nat) : Nat :=
  (checksummedBytes b).foldl (fun a v => a + v) 0

/-- `signed_sum` accumulator of `PosixHeader::validate`. -/
def signed_sum (b : List Nat) : Int :=
  (checksummedBytes b).foldl (fun a v => a + signedByte v) 0

/-- The `zeroes` flag of `PosixHeader::validate`: every one of the first
500 raw bytes is zero. -/
def zeroes500 (b : List Nat) : Bool :=
  (b.take 500).all (fun v => v == 0)

/-- `PosixHeader::validate` from `meta.rs`. `none` models the panic of
`parse_isize(&checksum_raw).unwrap()` when the checksum field does not
parse as signed octal. -/
def validate (b : List Nat) : Option HeaderCheck :=
  if zeroes500 b then
    some .Zeroes
  else
    match parse_isize (extract_string b 148 8) with
    | none => none
    | some checksum =>
      if checksum < 0 then
        some (.Invalid false)
      else if unsigned_sum b ≠ checksum.toNat ∧ signed_sum b ≠ checksum then
        some (.Invalid false)
      else if extract b 257 6 = HEADER_MAGIC then
        some .Valid
      else
        some (.Invalid true)

/-- `PosixHeader::size`: best-effort octal parse of bytes 124..136,
defaulting to 0. -/
def sizeVal (b : List Nat) : Nat :=
  (parse_usize (extract_string b 124 12)).getD 0

/-- `PosixHeader::typeflag`: table lookup on byte 156. -/
def typeflagOf (b : List Nat) : HeaderType :=
  (pair_match_value ((extract b 156 1).headD 0) TYPE_FLAGS).getD .Unknown

/-- `PosixHeader` from `meta.rs` (offset, validation verdict, raw bytes). -/
structure PosixHeader where
  offset : Nat
  check : HeaderCheck
  buffer : List Nat
deriving DecidableEq, Repr

/-- `PosixHeader::from`: stores offset and bytes and runs `validate`
(which may panic, hence `Option`). -/
def PosixHeader.from (offset : Nat) (bytes : List Nat) : Option PosixHeader :=
  (validate bytes).map (fun c => ⟨offset, c, bytes⟩)

/-- `Header` from `meta.rs`. String fields are byte lists (see module
comment). -/
structure Header where
  check : HeaderCheck
  offset : Nat
  prev : Option Nat
  typeflag : HeaderType
  name : List Nat
  linkname : List Nat
  uname : List Nat
  gname : List Nat
  mode : Nat
  mtime : Nat
  size : Nat
deriving DecidableEq, Repr

/-- `Header::from` from `meta.rs`: copies offset and verdict, decodes
`size` and `typeflag`, leaves every other field at its default. -/
def Header.from (ph : PosixHeader) : Header :=
  { check := ph.check
    offset := ph.offset
    prev := none
    typeflag := typeflagOf ph.buffer
    name := []
    linkname := []
    uname := []
    gname := []
    mode := 0
    mtime := 0
    size := sizeVal ph.buffer }

/-- `PosixHeader::from` then `Header::from`, as in `HeadersParser::next_any`. -/
def headerFrom (offset : Nat) (bytes : List Nat) : Option Header :=
  (PosixHeader.from offset bytes).map Header.from

/-- `offset_by_blocks` from `mod.rs`. -/
def offset_by_blocks (bytes_count : Nat) : Nat :=
  let offset := bytes_count / BLOCK_SIZE * BLOCK_SIZE
  if bytes_count % BLOCK_SIZE = 0 then offset else offset + BLOCK_SIZE

end Ustar

namespace Ustar

/-- Mutable state of `HeadersParser` from `read.rs` (the source cursor is
kept in sync with `offset`, so it is not duplicated here). `iter_zeroes`
is a `u8` in the source: it wraps modulo 256. -/
structure ParserState where
  offset : Nat
  iter_valid_headers : Nat
  iter_invalid_headers : Nat
  iter_zeroes : Nat
deriving DecidableEq, Repr

/-- `HeadersParser::from`: source rewound to 0, all counters zero. -/
def initState : ParserState :=
  { offset := 0, iter_valid_headers := 0, iter_invalid_headers := 0,
    iter_zeroes := 0 }

/-- Result of one `next_any` call: end of source, a panic inside
`validate`, or a produced header with the updated parser state. -/
inductive StepOut where
  | eof : StepOut
  | panicked : StepOut
  | ok (h : Header) (s : ParserState) : StepOut
deriving DecidableEq, Repr

/-- `read_exact` of one 512-byte block at absolute position `off`:
succeeds only if 512 bytes are available. -/
def readBlock (src : List Nat) (off : Nat) : Option (List Nat) :=
  if off + BLOCK_SIZE ≤ src.length then some ((src.drop off).take BLOCK_SIZE)
  else none

/-- The counter bookkeeping at the end of `HeadersParser::next_any`
(`match &h.check { ... }`). On `Zeroes` the `> 2` test reads the counter
value from BEFORE the increment. -/
def updateCounters (s : ParserState) (c : HeaderCheck) : ParserState :=
  match c with
  | .Valid =>
      { s with
        iter_valid_headers := s.iter_valid_headers + 1
        iter_invalid_headers :=
          if 0 < s.iter_zeroes then s.iter_invalid_headers + 1
          else s.iter_invalid_headers }
  | .Invalid _ =>
      { s with iter_invalid_headers := s.iter_invalid_headers + 1 }
  | .Zeroes =>
      { s with
        iter_invalid_headers :=
          if 2 < s.iter_zeroes then s.iter_invalid_headers + 1
          else s.iter_invalid_headers
        iter_zeroes := (s.iter_zeroes + 1) % 256 }

/-- `HeadersParser::next_any` from `read.rs`: read a block, add 512 to
the offset BEFORE building the `PosixHeader` (so the stored offset is the
position after the block), decode, skip the payload, update counters. -/
def nextAny (src : List Nat) (s : ParserState) : StepOut :=
  match readBlock src s.offset with
  | none => .eof
  | some buffer =>
    let off1 := s.offset + BLOCK_SIZE
    match PosixHeader.from off1 buffer with
    | none => .panicked
    | some ph =>
      let h := Header.from ph
      let shift := offset_by_blocks h.size
      .ok h (updateCounters { s with offset := off1 + shift } h.check)

def isValid (h : Header) : Bool := h.check == HeaderCheck.Valid

/-- All headers successively produced by `next_any` (fuel-bounded), with
the number of 512-byte blocks read from the source. -/
def runAny (src : List Nat) : ParserState → Nat → List Header × Nat
  | _, 0 => ([], 0)
  | s, fuel + 1 =>
    match nextAny src s with
    | .eof => ([], 0)
    | .panicked => ([], 1)
    | .ok h s' =>
      let r := runAny src s' fuel
      (h :: r.1, r.2 + 1)

/-- The public `Iterator::next` loop of `HeadersParser` (fuel-bounded):
yields only while `next_any` produces a `Valid` header, with the number
of 512-byte blocks read from the source. -/
def runPub (src : List Nat) : ParserState → Nat → List Header × Nat
  | _, 0 => ([], 0)
  | s, fuel + 1 =>
    match nextAny src s with
    | .eof => ([], 0)
    | .panicked => ([], 1)
    | .ok h s' =>
      if isValid h then
        let r := runPub src s' fuel
        (h :: r.1, r.2 + 1)
      else ([], 1)

/-- Parser state after `n` successful `next_any` steps. -/
def runState (src : List Nat) : ParserState → Nat → ParserState
  | s, 0 => s
  | s, fuel + 1 =>
    match nextAny src s with
    | .ok _ s' => runState src s' fuel
    | _ => s

/-- Public iteration of `HeadersParser` over a whole source, with enough
fuel for any source of that length (each step consumes at least one
block). -/
def headersParserRun (src : List Nat) : List Header × Nat :=
  runPub src initState (src.length / 512 + 1)

/-- All `next_any` productions over a whole source, same fuel. -/
def allHeadersRun (src : List Nat) : List Header × Nat :=
  runAny src initState (src.length / 512 + 1)

end Ustar

namespace Ustar

/-! Concrete 512-byte blocks used as test inputs and counterexamples. -/

/-- A fully valid block: checksum field `"1517\0\0\0\0"` (octal 1517 =
847 = 256 spaces + the magic bytes), magic `"ustar "`, all other bytes
zero. -/
def validBlock : List Nat :=
  List.replicate 148 0 ++ [49, 53, 49, 55, 0, 0, 0, 0] ++
  List.replicate 101 0 ++ [117, 115, 116, 97, 114, 32] ++ List.replicate 249 0

/-- Checksum-consistent block (checksum `"1457\0..."` = 815) whose magic
is `"ustar\0"` (trailing NUL instead of space). -/
def nulMagicBlock : List Nat :=
  List.replicate 148 0 ++ [49, 52, 53, 55, 0, 0, 0, 0] ++
  List.replicate 101 0 ++ [117, 115, 116, 97, 114, 0] ++ List.replicate 249 0

/-- Non-zero block whose checksum field is eight ASCII spaces, which does
not parse as signed octal. -/
def panicBlock : List Nat :=
  [1] ++ List.replicate 147 0 ++ List.replicate 8 32 ++ List.replicate 356 0

/-- Block whose first 500 bytes are zero but whose byte 500 is 1. -/
def zeroesTailBlock : List Nat :=
  List.replicate 500 0 ++ [1] ++ List.replicate 11 0

/-- Block whose name field starts with `'a'` and whose checksum field is
`"0\0..."` (parses as 0, mismatching the sums, so verdict is
`Invalid{not_ustar:false}` without a panic). -/
def nameBlock : List Nat :=
  [97] ++ List.replicate 147 0 ++ [48, 0, 0, 0, 0, 0, 0, 0] ++
  List.replicate 356 0

/-- The `Header` that `headerFrom 0 nameBlock` produces. -/
def nameBlockHeader : Header :=
  { check := HeaderCheck.Invalid false, offset := 0, prev := none,
    typeflag := HeaderType.Reg, name := [], linkname := [],
    uname := [], gname := [], mode := 0, mtime := 0, size := 0 }

/-- The `Header` that `next_any` produces from a single all-zero block
read at source position 0 (note the stored offset 512). -/
def zeroBlockHeader : Header :=
  { check := HeaderCheck.Zeroes, offset := 512, prev := none,
    typeflag := HeaderType.Reg, name := [], linkname := [],
    uname := [], gname := [], mode := 0, mtime := 0, size := 0 }

/-- The parser state after that step. -/
def zeroBlockState : ParserState :=
  { offset := 512, iter_valid_headers := 0, iter_invalid_headers := 0,
    iter_zeroes := 1 }

end Ustar

namespace Ustar

set_option maxRecDepth 1000000

/-- Reduction of `validate` on a block that is not zeroes and whose
checksum field parses. -/
theorem validate_eq_of_parse (b : List Nat) (c : Int)
    (hz : zeroes500 b = false)
    (hp : parse_isize (extract_string b 148 8) = some c) :
    validate b =
      if c < 0 then some (HeaderCheck.Invalid false)
      else if unsigned_sum b ≠ c.toNat ∧ signed_sum b ≠ c then
        some (HeaderCheck.Invalid false)
      else if extract b 257 6 = HEADER_MAGIC then some HeaderCheck.Valid
      else some (HeaderCheck.Invalid true) := by
  unfold validate
  rw [hz, hp]
  simp

/-- The `all zero` test on a take is the pointwise statement. -/
theorem take_all_zero_iff (b : List Nat) (n : Nat) (hn : n ≤ b.length) :
    ((b.take n).all (fun v => v == 0) = true) ↔
      ∀ i, i < n → b.getD i 0 = 0 := by
  induction b generalizing n with
  | nil =>
    simp only [List.length_nil, Nat.le_zero] at hn
    subst hn
    simp
  | cons x xs ih =>
    cases n with
    | zero => simp
    | succ m =>
      simp only [List.take_succ_cons, List.all_cons, Bool.and_eq_true,
        beq_iff_eq]
      rw [ih m (by simpa using hn)]
      constructor
      · rintro ⟨hx, hrest⟩ i hi
        cases i with
        | zero => simpa using hx
        | succ j => simpa using hrest j (by omega)
      · intro h
        refine ⟨by simpa using h 0 (by omega), fun j hj => ?_⟩
        simpa using h (j + 1) (by omega)

/-- Claim C1: for a 512-byte block that is not all-zero in its first 500
bytes and whose checksum field parses as signed octal to `c`, the verdict
is `Valid` iff `c` is non-negative, `c` equals the unsigned or the
signed-byte sum of the 500 checksummed bytes (checksum field blanked to
spaces), and the magic field equals the ustar marker; a negative `c` or a
double mismatch gives `Invalid{not_ustar:false}`. -/
theorem validate_valid_iff (b : List Nat) (c : Int)
    (hlen : b.length = 512) (hz : zeroes500 b = false)
    (hp : parse_isize (extract_string b 148 8) = some c) :
    (validate b = some HeaderCheck.Valid ↔
      0 ≤ c ∧ ((unsigned_sum b : Int) = c ∨ signed_sum b = c) ∧
        extract b 257 6 = HEADER_MAGIC) ∧
    (c < 0 ∨ ((unsigned_sum b : Int) ≠ c ∧ signed_sum b ≠ c) →
      validate b = some (HeaderCheck.Invalid false)) := by
  rw [validate_eq_of_parse b c hz hp]
  split_ifs with h1 h2 h3
  · refine ⟨⟨fun h => by simp at h, fun ⟨hc0, _, _⟩ => absurd hc0 (by omega)⟩,
      fun _ => rfl⟩
  · refine ⟨⟨fun h => by simp at h, fun ⟨hc0, hsum, _⟩ => ?_⟩, fun _ => rfl⟩
    rcases hsum with hu | hs
    · exact absurd hu (by omega)
    · exact absurd hs h2.2
  · refine ⟨⟨fun _ => ⟨by omega, ?_, h3⟩, fun _ => rfl⟩, fun hbad => ?_⟩
    · rcases Decidable.not_and_iff_or_not.mp h2 with hu | hs
      · exact Or.inl (by omega)
      · exact Or.inr (by omega)
    · rcases hbad with hneg | ⟨hu, hs⟩
      · exact absurd hneg h1
      · rcases Decidable.not_and_iff_or_not.mp h2 with hu' | hs'
        · exact absurd (show (unsigned_sum b : Int) = c by omega) hu
        · exact absurd (by omega) hs
  · refine ⟨⟨fun h => by simp at h, fun ⟨_, _, hm⟩ => absurd hm h3⟩,
      fun hbad => ?_⟩
    rcases hbad with hneg | ⟨hu, hs⟩
    · exact absurd hneg h1
    · rcases Decidable.not_and_iff_or_not.mp h2 with hu' | hs'
      · exact absurd (show (unsigned_sum b : Int) = c by omega) hu
      · exact absurd (by omega) hs

/-- Witness for claim C1 at `validBlock` (checksum 847, magic ustar). -/
theorem validate_valid_iff_witness :
    (validBlock.length = 512 ∧ zeroes500 validBlock = false ∧
      parse_isize (extract_string validBlock 148 8) = some 847) ∧
    ((validate validBlock = some HeaderCheck.Valid ↔
      0 ≤ (847 : Int) ∧
        ((unsigned_sum validBlock : Int) = 847 ∨
          signed_sum validBlock = 847) ∧
        extract validBlock 257 6 = HEADER_MAGIC) ∧
    ((847 : Int) < 0 ∨
        ((unsigned_sum validBlock : Int) ≠ 847 ∧
          signed_sum validBlock ≠ 847) →
      validate validBlock = some (HeaderCheck.Invalid false))) :=
  ⟨by decide,
    validate_valid_iff validBlock 847 (by decide) (by decide) (by decide)⟩

/-- Claim C2: `offset_by_blocks` is `ceil(n / 512) * 512`, with the quoted
concrete values; the result is a multiple of 512 and never below `n`
rounded down to a multiple of 512. -/
theorem offset_by_blocks_spec (n : Nat) :
    offset_by_blocks n = (n + 511) / 512 * 512 ∧
    offset_by_blocks 0 = 0 ∧ offset_by_blocks 511 = 512 ∧
    offset_by_blocks 512 = 512 ∧ offset_by_blocks 513 = 1024 ∧
    512 ∣ offset_by_blocks n ∧
    n / 512 * 512 ≤ offset_by_blocks n := by
  unfold offset_by_blocks BLOCK_SIZE
  refine ⟨?_, by norm_num, by norm_num, by norm_num, by norm_num, ?_, ?_⟩
  · simp only
    split <;> omega
  · simp only
    split <;> omega
  · simp only
    split <;> omega

/-- Claim C5: the decoder is NOT panic-free. On a non-zero block whose
checksum field is eight ASCII spaces, `parse_isize` fails and the
`.unwrap()` in `PosixHeader::validate` panics (modelled as `none`)
instead of returning `Invalid{not_ustar:false}`. -/
theorem validate_panics_on_bad_checksum : validate panicBlock = none := by
  decide

/-- Counterexample to claim C6: a block whose first 500 bytes are zero
but whose byte 500 is 1 still gets verdict `Zeroes`, so `Zeroes` does not
imply that all 512 bytes are zero. -/
theorem zeroes_not_all512 :
    validate zeroesTailBlock = some HeaderCheck.Zeroes ∧
    zeroesTailBlock.length = 512 ∧ zeroesTailBlock.getD 500 0 = 1 := by
  decide

/-- Amended claim C6: `Zeroes` holds iff every one of the FIRST 500 bytes
is zero (bytes 500..511 are ignored); an all-zero 512-byte block decodes
to `Zeroes`; and `Zeroes` excludes `Valid` and `Invalid`. -/
theorem validate_zeroes_iff (b : List Nat) (hlen : b.length = 512) :
    (validate b = some HeaderCheck.Zeroes ↔
      ∀ i, i < 500 → b.getD i 0 = 0) ∧
    ((∀ i, i < 512 → b.getD i 0 = 0) → validate b = some HeaderCheck.Zeroes) ∧
    (validate b = some HeaderCheck.Zeroes →
      validate b ≠ some HeaderCheck.Valid ∧
      ∀ u, validate b ≠ some (HeaderCheck.Invalid u)) := by
  have hiff : zeroes500 b = true ↔ ∀ i, i < 500 → b.getD i 0 = 0 :=
    take_all_zero_iff b 500 (by omega)
  have hmain : validate b = some HeaderCheck.Zeroes ↔
      ∀ i, i < 500 → b.getD i 0 = 0 := by
    rw [← hiff]
    constructor
    · intro h
      by_contra hz
      have hz' : zeroes500 b = false := by
        cases hzb : zeroes500 b with
        | false => rfl
        | true => exact absurd hzb hz
      unfold validate at h
      rw [hz'] at h
      simp only [Bool.false_eq_true, if_false] at h
      cases hp : parse_isize (extract_string b 148 8) with
      | none => rw [hp] at h; exact Option.noConfusion h
      | some c =>
        rw [hp] at h
        repeat' split at h
        all_goals simp at h
    · intro h
      unfold validate
      rw [if_pos h]
  refine ⟨hmain, fun h => hmain.mpr (fun i hi => h i (by omega)), fun h => ?_⟩
  rw [h]
  exact ⟨by simp, fun u => by simp⟩

/-- Witness for the amended claim C6 at the all-zero block. -/
theorem validate_zeroes_iff_witness :
    ((List.replicate 512 0 : List Nat).length = 512) ∧
    ((validate (List.replicate 512 0) = some HeaderCheck.Zeroes ↔
      ∀ i, i < 500 → (List.replicate 512 0 : List Nat).getD i 0 = 0) ∧
    ((∀ i, i < 512 → (List.replicate 512 0 : List Nat).getD i 0 = 0) →
      validate (List.replicate 512 0) = some HeaderCheck.Zeroes) ∧
    (validate (List.replicate 512 0) = some HeaderCheck.Zeroes →
      validate (List.replicate 512 0) ≠ some HeaderCheck.Valid ∧
      ∀ u, validate (List.replicate 512 0) ≠ some (HeaderCheck.Invalid u))) :=
  ⟨by decide, validate_zeroes_iff (List.replicate 512 0) (by decide)⟩

/-- Counterexample to claim C7: a checksum-consistent block whose magic
is `"ustar\0"` (trailing NUL) is NOT accepted: the verdict is
`Invalid{not_ustar:true}`, not `Valid`. -/
theorem magic_nul_rejected :
    parse_isize (extract_string nulMagicBlock 148 8) = some 815 ∧
    (unsigned_sum nulMagicBlock : Int) = 815 ∧
    signed_sum nulMagicBlock = 815 ∧
    extract nulMagicBlock 257 6 = [117, 115, 116, 97, 114, 0] ∧
    validate nulMagicBlock = some (HeaderCheck.Invalid true) := by
  decide

/-- Amended claim C7: on a checksum-consistent block the magic comparison
accepts exactly the six bytes `"ustar "` (trailing SPACE); any other
magic content, including `"ustar\0"`, gives `Invalid{not_ustar:true}`. -/
theorem validate_magic_spec (b : List Nat) (c : Int)
    (hlen : b.length = 512) (hz : zeroes500 b = false)
    (hp : parse_isize (extract_string b 148 8) = some c)
    (hc0 : 0 ≤ c)
    (hsum : (unsigned_sum b : Int) = c ∨ signed_sum b = c) :
    (validate b = some HeaderCheck.Valid ↔ extract b 257 6 = HEADER_MAGIC) ∧
    (extract b 257 6 ≠ HEADER_MAGIC →
      validate b = some (HeaderCheck.Invalid true)) := by
  rw [validate_eq_of_parse b c hz hp]
  rw [if_neg (by omega)]
  have hns : ¬(unsigned_sum b ≠ c.toNat ∧ signed_sum b ≠ c) := by
    rcases hsum with hu | hs
    · intro hcon; exact hcon.1 (by omega)
    · intro hcon; exact hcon.2 hs
  rw [if_neg hns]
  split_ifs with hm
  · exact ⟨⟨fun _ => hm, fun _ => rfl⟩, fun hc => absurd hm hc⟩
  · exact ⟨⟨fun h => by simp at h, fun hc => absurd hc hm⟩, fun _ => rfl⟩

/-- Witness for the amended claim C7 at `validBlock`. -/
theorem validate_magic_spec_witness :
    (validBlock.length = 512 ∧ zeroes500 validBlock = false ∧
      parse_isize (extract_string validBlock 148 8) = some 847 ∧
      0 ≤ (847 : Int) ∧
      ((unsigned_sum validBlock : Int) = 847 ∨
        signed_sum validBlock = 847)) ∧
    ((validate validBlock = some HeaderCheck.Valid ↔
      extract validBlock 257 6 = HEADER_MAGIC) ∧
    (extract validBlock 257 6 ≠ HEADER_MAGIC →
      validate validBlock = some (HeaderCheck.Invalid true))) :=
  ⟨by decide,
    validate_magic_spec validBlock 847 (by decide) (by decide) (by decide)
      (by decide) (by decide)⟩

/-- Counterexample to claim C8: the name field of `nameBlock` decodes to
`"a"` (byte 97), yet the returned `Header` carries an empty name — the
string fields are NOT best-effort decoded. -/
theorem header_name_not_decoded :
    (headerFrom 0 nameBlock).map Header.name = some [] ∧
    extract_string nameBlock 0 100 = [97] := by
  decide

/-- Amended claim C8: whenever decoding completes (no checksum panic),
the returned `Header` carries best-effort `size` and `typeflag` decoded
from the block, the verdict from `validate`, and the construction
offset; but `name`, `link_name`, `owner_name`, `group_name` are empty
and `mode`, `mtime` are 0 regardless of block content. -/
theorem headerFrom_fields (off : Nat) (b : List Nat) (h : Header)
    (hh : headerFrom off b = some h) :
    h.size = sizeVal b ∧ h.typeflag = typeflagOf b ∧ h.offset = off ∧
    validate b = some h.check ∧ h.prev = none ∧
    h.name = [] ∧ h.linkname = [] ∧ h.uname = [] ∧ h.gname = [] ∧
    h.mode = 0 ∧ h.mtime = 0 := by
  unfold headerFrom PosixHeader.from at hh
  cases hv : validate b with
  | none => rw [hv] at hh; exact Option.noConfusion hh
  | some c =>
    rw [hv] at hh
    simp only [Option.map_map, Option.map_some] at hh
    cases hh
    simp [Header.from]

/-- Witness for the amended claim C8 at `nameBlock`. -/
theorem headerFrom_fields_witness :
    (headerFrom 0 nameBlock = some nameBlockHeader) ∧
    (nameBlockHeader.size = sizeVal nameBlock ∧
      nameBlockHeader.typeflag = typeflagOf nameBlock ∧
      nameBlockHeader.offset = 0 ∧
      validate nameBlock = some nameBlockHeader.check ∧
      nameBlockHeader.prev = none ∧
      nameBlockHeader.name = [] ∧ nameBlockHeader.linkname = [] ∧
      nameBlockHeader.uname = [] ∧ nameBlockHeader.gname = [] ∧
      nameBlockHeader.mode = 0 ∧ nameBlockHeader.mtime = 0) :=
  ⟨by decide, headerFrom_fields 0 nameBlock nameBlockHeader (by decide)⟩

/-- One public pull agrees with one `next_any` pull step by step: the
public run is the `takeWhile isValid` of the `next_any` run, and it reads
one block past its yields unless the source ends first. Proved for every
fuel because both runs consume it in lock-step. -/
theorem runPub_spec (src : List Nat) (fuel : Nat) : ∀ s : ParserState,
    (runPub src s fuel).1 = (runAny src s fuel).1.takeWhile isValid ∧
    (runPub src s fuel).2 =
      min ((runPub src s fuel).1.length + 1) (runAny src s fuel).2 := by
  induction fuel with
  | zero => intro s; simp [runPub, runAny]
  | succ n ih =>
    intro s
    cases hstep : nextAny src s with
    | eof => simp [runPub, runAny, hstep]
    | panicked => simp [runPub, runAny, hstep]
    | ok h s' =>
      obtain ⟨ih1, ih2⟩ := ih s'
      by_cases hv : isValid h
      · simp only [runPub, runAny, hstep, hv, if_true]
        exact ⟨by simp [List.takeWhile_cons, hv, ih1],
          by simp <;> omega⟩
      · simp only [runPub, runAny, hstep, hv, if_false]
        exact ⟨by simp [List.takeWhile_cons, hv],
          by simp <;> omega⟩

/-- Claim C3: for every byte source, the public iteration of
`HeadersParser` yields exactly the longest prefix of `next_any`-decoded
headers whose validation is `Valid` (so every yielded header is `Valid`
and the first non-valid header terminates the sequence), and it reads no
block beyond the terminating one: the number of blocks read is the
number of yields plus at most one. -/
theorem headersParser_yields_valid_prefix (src : List Nat) :
    (headersParserRun src).1 = (allHeadersRun src).1.takeWhile isValid ∧
    (∀ h ∈ (headersParserRun src).1, h.check = HeaderCheck.Valid) ∧
    (headersParserRun src).2 =
      min ((headersParserRun src).1.length + 1) (allHeadersRun src).2 := by
  unfold headersParserRun allHeadersRun
  obtain ⟨hs1, hs2⟩ := runPub_spec src (src.length / 512 + 1) initState
  refine ⟨hs1, ?_, hs2⟩
  intro h hmem
  rw [hs1] at hmem
  have hmem2 := List.mem_takeWhile_imp hmem
  simpa [isValid] using hmem2

/-- Claim C4 fails in the code: `next_any` adds 512 to the cursor BEFORE
constructing the `PosixHeader`, so the header decoded from the block
starting at absolute position 0 carries offset 512, not 0. -/
theorem first_header_offset_is_512 :
    initState.offset = 0 ∧
    (runAny (List.replicate 512 0) initState 2).1.map Header.offset =
      [512] := by decide

/-- Claim C9 fails in the code: after three consecutive zero blocks the
`iter_zeroes > 2` test (evaluated before the increment) has still not
fired, so `iter_invalid_headers` stays 0 although the claim requires the
third consecutive zero block to increment it. -/
theorem third_zero_block_not_flagged :
    (runState (List.replicate 1536 0) initState 3).iter_zeroes = 3 ∧
    (runState (List.replicate 1536 0) initState 3).iter_invalid_headers
      = 0 := by decide

/-- Counter bookkeeping never touches the cursor. -/
theorem updateCounters_offset (s : ParserState) (c : HeaderCheck) :
    (updateCounters s c).offset = s.offset := by
  cases c <;> rfl

/-- `offset_by_blocks` always lands on a block boundary. -/
theorem offset_by_blocks_dvd (n : Nat) : 512 ∣ offset_by_blocks n := by
  unfold offset_by_blocks BLOCK_SIZE
  simp only
  split <;> omega

/-- Claim C10: the stream cursor starts at 0 and every successful
`next_any` step advances it by exactly 512 plus the (512-divisible)
payload skip, so 512-alignment is preserved and the offset never
decreases. -/
theorem nextAny_offset_aligned (src : List Nat) (s : ParserState)
    (h : Header) (s' : ParserState)
    (hstep : nextAny src s = StepOut.ok h s') :
    initState.offset = 0 ∧
    s'.offset = s.offset + 512 + offset_by_blocks h.size ∧
    512 ∣ offset_by_blocks h.size ∧
    (512 ∣ s.offset → 512 ∣ s'.offset) ∧
    s.offset ≤ s'.offset := by
  unfold nextAny at hstep
  cases hrb : readBlock src s.offset with
  | none => rw [hrb] at hstep; exact StepOut.noConfusion hstep
  | some buffer =>
    rw [hrb] at hstep
    simp only at hstep
    cases hph : PosixHeader.from (s.offset + BLOCK_SIZE) buffer with
    | none => rw [hph] at hstep; exact StepOut.noConfusion hstep
    | some ph =>
      rw [hph] at hstep
      simp only [StepOut.ok.injEq] at hstep
      obtain ⟨hh, hs'⟩ := hstep
      subst hh
      subst hs'
      rw [updateCounters_offset]
      have hd := offset_by_blocks_dvd (Header.from ph).size
      refine ⟨rfl, ?_, hd, ?_, ?_⟩
      · show s.offset + BLOCK_SIZE + _ = _
        unfold BLOCK_SIZE
        ring
      · intro hs0
        show 512 ∣ s.offset + BLOCK_SIZE + _
        unfold BLOCK_SIZE
        omega
      · show s.offset ≤ s.offset + BLOCK_SIZE + _
        omega

/-- Witness for claim C10 at a single all-zero block. -/
theorem nextAny_offset_aligned_witness :
    (nextAny (List.replicate 512 0) initState =
      StepOut.ok zeroBlockHeader zeroBlockState) ∧
    (initState.offset = 0 ∧
      zeroBlockState.offset =
        initState.offset + 512 + offset_by_blocks zeroBlockHeader.size ∧
      512 ∣ offset_by_blocks zeroBlockHeader.size ∧
      (512 ∣ initState.offset → 512 ∣ zeroBlockState.offset) ∧
      initState.offset ≤ zeroBlockState.offset) :=
  ⟨by decide,
    nextAny_offset_aligned (List.replicate 512 0) initState zeroBlockHeader
      zeroBlockState (by decide)⟩

end Ustar
